import Mathlib

/-!
Verification of the go-ovsdb client protocol core against its source.

The Go code is shallowly embedded: JSON documents are modelled as a tree
(`Json`), Go slices and maps as lists, and each `MarshalJSON` /
`UnmarshalJSON` method as a pure Lean function.  Methods that mutate their
receiver are modelled in state-passing style: they take the receiver value
and return the pair (error component, updated receiver), mirroring the Go
pointer receiver.  JSON numbers are modelled as integers (no claim touches
non-integer numerics), and a Go nil slice is identified with the empty
list (the tests of the repository exercise the non-nil behaviour).
-/

namespace GoOvsdb

/-- A decoded JSON document, as produced by Go encoding/json into an
`interface\x7b\x7d` tree: null, booleans, numbers, strings, arrays, objects. -/
inductive Json where
  | null
  | bool (b : Bool)
  | num (n : Int)
  | str (s : String)
  | arr (elems : List Json)
  | obj (members : List (String × Json))

/-- True when the document is a JSON array: mirrors the Go decoders peeking
at the first byte for the opening bracket. -/
def Json.isArr : Json → Bool
  | .arr _ => true
  | _ => false

/-- True when the document is a JSON string: mirrors the Go decoders peeking
at the first byte for the opening quote. -/
def Json.isStr : Json → Bool
  | .str _ => true
  | _ => false

/-- A Go `map[string]interface\x7b\x7d`, as an association list with unique
keys; `insertGo` models map assignment (replace the entry, or add it). -/
abbrev GoMap := List (String × Json)

/-- Assignment `m[k] = v` on a Go string-keyed map. -/
def GoMap.insertGo (m : GoMap) (k : String) (v : Json) : GoMap :=
  if m.any (fun kv => kv.1 = k) then
    m.map (fun kv => if kv.1 = k then (k, v) else kv)
  else
    m ++ [(k, v)]

/-- Go json.Unmarshal of an object into an existing (possibly non-nil) map:
existing entries are kept, incoming members override entry by entry. -/
def GoMap.mergeInto (m : GoMap) (fields : List (String × Json)) : GoMap :=
  fields.foldl (fun acc kv => acc.insertGo kv.1 kv.2) m

/-- Errors returned by the decoders: the named sentinel errors of the
repository (errNotSet, errNotStringSet, errNotMap, errNotUUID) and the
type errors produced by Go encoding/json itself. -/
inductive DecodeErr where
  | notSet
  | notStringSet
  | notMap
  | notUUID
  | typeErr (goType : String)
deriving DecidableEq, Repr

/-- Element-wise read of a JSON array into Go strings: every element must
be a string, a non-string element failing the slice decode. -/
def decodeStrings : List Json → Except DecodeErr (List String)
  | [] => .ok []
  | .str s :: rest =>
      match decodeStrings rest with
      | .ok ss => .ok (s :: ss)
      | .error e => .error e
  | _ :: _ => .error (.typeErr "[]string")

/-- Go json.Unmarshal into a `[]string` target: the input must be an array
of strings (a type error otherwise); JSON null leaves the nil slice. -/
def decodeStringSlice : Json → Except DecodeErr (List String)
  | .null => .ok []
  | .arr xs => decodeStrings xs
  | _ => .error (.typeErr "[]string")

/-- types.go UUID.UnmarshalJSON: decode a `[\x22uuid\x22, <36 chars>]` pair into
the receiver; the receiver is written only on success. -/
def UUID.UnmarshalJSON (uuid : String) (value : Json) : Option DecodeErr × String :=
  match decodeStringSlice value with
  | .error e => (some e, uuid)
  | .ok ovsUUID =>
      match ovsUUID with
      | [magic, u] =>
          if magic = "uuid" ∧ u.length = 36 then (none, u) else (some .notUUID, uuid)
      | _ => (some .notUUID, uuid)

/-- types.go NamedUUID.UnmarshalJSON: decode a `[\x22named-uuid\x22, <id>]` pair;
the source returns errNotUUID (not a dedicated error) on a shape mismatch. -/
def NamedUUID.UnmarshalJSON (nu : String) (value : Json) : Option DecodeErr × String :=
  match decodeStringSlice value with
  | .error e => (some e, nu)
  | .ok ovsNamedUUID =>
      match ovsNamedUUID with
      | [magic, u] =>
          if magic = "named-uuid" then (none, u) else (some .notUUID, nu)
      | _ => (some .notUUID, nu)

/-- set.go Set: an OVSDB set, its elements held as decoded JSON values. -/
structure Set where
  Values : List Json := []

/-- set.go Set.UnmarshalJSON (the decoder the round-trip claim cites, which
unmarshals the array form into a plain slice and checks its length):
a non-array input is appended to the receiver as a single atomic value;
an array must be exactly `[\x22set\x22, <array>]`.  A failed two-result type
assertion on the second element assigns the zero value to s.Values. -/
def Set.UnmarshalJSON (s : Set) (value : Json) : Option DecodeErr × Set :=
  match value with
  | .arr ovsSet =>
      match ovsSet with
      | [magic, snd] =>
          match magic with
          | .str m =>
              if m = "set" then
                match snd with
                | .arr values => (none, { Values := values })
                | _ => (some .notSet, { Values := [] })
              else (some .notSet, s)
          | _ => (some .notSet, s)
      | _ => (some .notSet, s)
  | atomic => (none, { Values := s.Values ++ [atomic] })

/-- set.go Set.MarshalJSON: a 1-element set collapses to the bare element;
otherwise the tagged `[\x22set\x22, values]` form. -/
def Set.MarshalJSON (s : Set) : Json :=
  match s.Values with
  | [x] => x
  | _ => .arr [.str "set", .arr s.Values]

/-- set.go StringSet: a Set with elements of string type. -/
structure StringSet where
  Values : List String := []
deriving DecidableEq, Repr

/-- The element loop of StringSet.UnmarshalJSON: each element must be a
string and is appended to the accumulator (which the caller has already
set to `make([]string, len(values))`, i.e. a run of empty strings). -/
def StringSet.loopDecode (acc : List String) : List Json → Option DecodeErr × List String
  | [] => (none, acc)
  | .str v :: rest => StringSet.loopDecode (acc ++ [v]) rest
  | _ :: _ => (some .notStringSet, acc)

/-- set.go StringSet.UnmarshalJSON: the array branch reads into a
`[2]interface\x7b\x7d` (extra elements discarded, missing ones nil), checks the
magic, then rebuilds s.Values with `make` followed by `append` — so the
result of a successful tagged decode keeps the `make`-allocated empty
strings in front of the appended elements. -/
def StringSet.UnmarshalJSON (s : StringSet) (value : Json) : Option DecodeErr × StringSet :=
  match value with
  | .arr ovsSet =>
      match ovsSet.getD 0 .null with
      | .str magic =>
          if magic = "set" then
            match ovsSet.getD 1 .null with
            | .arr values =>
                match StringSet.loopDecode (List.replicate values.length "") values with
                | (err, vals) => (err, { Values := vals })
            | _ => (some .notSet, s)
          else (some .notSet, s)
      | _ => (some .notSet, s)
  | .str atomic => (none, { Values := [atomic] })
  | .null => (none, { Values := [""] })
  | _ => (some (.typeErr "string"), s)

/-- set.go StringSet.MarshalJSON: same scalar-collapse rule as Set. -/
def StringSet.MarshalJSON (s : StringSet) : Json :=
  match s.Values with
  | [x] => .str x
  | _ => .arr [.str "set", .arr (s.Values.map .str)]

/-- A pair within an OVSDB map (`MapPair`, a 2-element array of atoms). -/
abbrev MapPair := Json × Json

/-- Map represents an OVSDB map: a list of key/value pairs. -/
structure Map where
  Values : List MapPair := []

/-- The element loop of Map.UnmarshalJSON: each element must be a 2-element
array; its halves are appended to m.Values as a pair.  A non-pair element
fails the decode, leaving the pairs appended so far in place. -/
def Map.loopDecode (acc : List MapPair) : List Json → Option DecodeErr × List MapPair
  | [] => (none, acc)
  | v :: rest =>
      match v with
      | .arr [k, val] => Map.loopDecode (acc ++ [(k, val)]) rest
      | _ => (some .notMap, acc)

/-- Map.UnmarshalJSON: read into a `[2]interface\x7b\x7d` (extra elements
discarded, missing ones nil; a null input is a no-op leaving both elements
nil, so the magic assertion then fails), check the `map` magic, then run
the pair loop appending into the receiver. -/
def Map.UnmarshalJSON (m : Map) (value : Json) : Option DecodeErr × Map :=
  match value with
  | .arr ovsMap =>
      match ovsMap.getD 0 .null with
      | .str magic =>
          if magic = "map" then
            match ovsMap.getD 1 .null with
            | .arr values =>
                match Map.loopDecode m.Values values with
                | (err, vals) => (err, { Values := vals })
            | _ => (some .notMap, m)
          else (some .notMap, m)
      | _ => (some .notMap, m)
  | .null => (some .notMap, m)
  | _ => (some (.typeErr "[2]interface"), m)

/-- Map.MarshalJSON: always the tagged `[\x22map\x22, [[k,v],...]]` form, with
no scalar collapse. -/
def Map.MarshalJSON (m : Map) : Json :=
  .arr [.str "map", .arr (m.Values.map (fun p => .arr [p.1, p.2]))]

/-- types.go Error: the remote per-operation error, with its short class
string and human-readable details. -/
structure Error where
  Err : String
  Details : String
deriving DecidableEq, Repr

/-- One entry of TransactResult.Results (an `interface\x7b\x7d` slot in Go):
the nil not-attempted marker, a decoded *Error, or the element kept as its
raw payload. -/
inductive TRItem where
  | notAttempted
  | remoteError (e : Error)
  | raw (v : Json)

/-- TransactResult: per-operation results plus the accumulated errors. -/
structure TransactResult where
  Results : List TRItem := []
  Errors : List Error := []

/-- Outcome of TransactResult.UnmarshalJSON: the returned error (nil on
success) together with the receiver as left by the method, or a runtime
panic from a failed interface type assertion. -/
inductive TROutcome where
  | done (err : Option DecodeErr) (tr : TransactResult)
  | panicked

/-- The element loop of TransactResult.UnmarshalJSON.  `temp` is the
`map[string]interface\x7b\x7d` declared once outside the loop: a null element
sets it to nil, an object element is merged into whatever it already
holds, any other element is a type error.  An object is classified as an
error by probing the merged map for an `error` key, and the Err/Details
fields are read with unguarded string type assertions. -/
def TransactResult.loopDecode (temp : Option GoMap) (tr : TransactResult) :
    List Json → TROutcome
  | [] => .done none tr
  | rawMsg :: rest =>
      match rawMsg with
      | .null =>
          TransactResult.loopDecode none
            { tr with Results := tr.Results ++ [.notAttempted] } rest
      | .obj fields =>
          let temp2 := (temp.getD []).mergeInto fields
          match temp2.lookup "error" with
          | some ev =>
              match ev, temp2.lookup "details" with
              | .str e, some (.str d) =>
                  TransactResult.loopDecode (some temp2)
                    { Results := tr.Results ++ [.remoteError ⟨e, d⟩],
                      Errors := tr.Errors ++ [⟨e, d⟩] } rest
              | _, _ => .panicked
          | none =>
              TransactResult.loopDecode (some temp2)
            { tr with Results := tr.Results ++ [.raw rawMsg] } rest
      | _ => .done (some (.typeErr "map[string]interface")) tr

/-- TransactResult.UnmarshalJSON: unmarshal the reply into a slice of raw
messages (a non-array, non-null input is a type error), then classify the
elements left to right with the shared `temp` map. -/
def TransactResult.UnmarshalJSON (tr : TransactResult) (value : Json) : TROutcome :=
  match value with
  | .arr raws => TransactResult.loopDecode none tr raws
  | .null => .done none tr
  | _ => .done (some (.typeErr "[]json.RawMessage")) tr

/-- types.go ID: a JSON string naming a database, table, column or lock. -/
abbrev ID := String

/-- types.go Row: a mapping from column name to value (`map[ID]Value`),
modelled as an association list; Go serializes map keys in sorted order,
which the row orders used by the claims (single-column rows) satisfy
trivially, so the association order is kept as given. -/
abbrev Row := List (ID × Json)

/-- Errors produced by the operation encoders: a missing required field
(`<name> field is required`) or a validation failure naming the offending
condition or mutation. -/
inductive MarshalErr where
  | requiredField (name : String)
  | invalidCondition (c : String × String × Json)
  | invalidMutation (m : String × String × Json)

/-- operation.go Condition: the `[column, function, value]` triple. -/
structure Condition where
  Column : ID
  Function : String
  Value : Json

/-- Condition.Valid: the function must be one of the eight enumerated
comparison operators. -/
def Condition.Valid (c : Condition) : Bool :=
  match c.Function with
  | "<" | "<=" | "==" | "!=" | ">" | ">=" | "includes" | "excludes" => true
  | _ => false

/-- Condition.MarshalJSON: the 3-element array form. -/
def Condition.MarshalJSON (c : Condition) : Json :=
  .arr [.str c.Column, .str c.Function, c.Value]

/-- operation.go Mutation: the `[column, mutator, value]` triple. -/
structure Mutation where
  Column : ID
  Mutator : String
  Value : Json

/-- Mutation.Valid: the mutator must be one of the seven enumerated
mutators. -/
def Mutation.Valid (m : Mutation) : Bool :=
  match m.Mutator with
  | "+=" | "-=" | "*=" | "/=" | "%=" | "insert" | "delete" => true
  | _ => false

/-- Mutation.MarshalJSON: the 3-element array form. -/
def Mutation.MarshalJSON (m : Mutation) : Json :=
  .arr [.str m.Column, .str m.Mutator, m.Value]

/-- Wrap a Condition for the validation error, which formats the whole
triple into the message. -/
def Condition.asErrPayload (c : Condition) : String × String × Json :=
  (c.Column, c.Function, c.Value)

/-- Wrap a Mutation for the validation error. -/
def Mutation.asErrPayload (m : Mutation) : String × String × Json :=
  (m.Column, m.Mutator, m.Value)

/-- operation.go InsertOperation.  Row is a Go map that may be nil: `none`
models the nil map, `some []` the non-nil empty map. -/
structure InsertOperation where
  Table : ID
  Row : Option Row
  UUIDName : ID := ""

/-- InsertOperation.MarshalJSON: validates Table non-empty and Row non-nil,
then emits `op, table, row` in order, appending `uuid-name` only when
UUIDName is non-empty (the omitempty tag). -/
def InsertOperation.MarshalJSON (insert : InsertOperation) : Except MarshalErr Json :=
  if insert.Table.length = 0 then .error (.requiredField "Table")
  else
    match insert.Row with
    | none => .error (.requiredField "Row")
    | some row =>
        .ok (.obj ([("op", .str "insert"), ("table", .str insert.Table),
          ("row", .obj row)] ++
          (if insert.UUIDName.length = 0 then []
           else [("uuid-name", .str insert.UUIDName)])))

/-- operation.go SelectOperation. -/
structure SelectOperation where
  Table : ID
  Where : List Condition
  Columns : List ID := []

/-- SelectOperation.MarshalJSON: validates Table, a non-empty Where and
every condition, then emits `op, table, where`, appending `columns` only
when non-empty (the omitempty tag). -/
def SelectOperation.MarshalJSON (s : SelectOperation) : Except MarshalErr Json :=
  if s.Table.length = 0 then .error (.requiredField "Table")
  else if s.Where.length = 0 then .error (.requiredField "Where")
  else
    match s.Where.find? (fun c => !c.Valid) with
    | some cond => .error (.invalidCondition cond.asErrPayload)
    | none =>
        .ok (.obj ([("op", .str "select"), ("table", .str s.Table),
          ("where", .arr (s.Where.map Condition.MarshalJSON))] ++
          (if s.Columns.length = 0 then []
           else [("columns", .arr (s.Columns.map .str))])))

/-- operation.go UpdateOperation.  Row is required non-empty (`len` covers
both the nil and the empty map), so a plain list suffices. -/
structure UpdateOperation where
  Table : ID
  Where : List Condition
  Row : Row

/-- UpdateOperation.MarshalJSON: validates Table, Where, a non-empty Row
and every condition, then emits `op, table, where, row`. -/
def UpdateOperation.MarshalJSON (u : UpdateOperation) : Except MarshalErr Json :=
  if u.Table.length = 0 then .error (.requiredField "Table")
  else if u.Where.length = 0 then .error (.requiredField "Where")
  else if u.Row.length = 0 then .error (.requiredField "Row")
  else
    match u.Where.find? (fun c => !c.Valid) with
    | some cond => .error (.invalidCondition cond.asErrPayload)
    | none =>
        .ok (.obj [("op", .str "update"), ("table", .str u.Table),
          ("where", .arr (u.Where.map Condition.MarshalJSON)),
          ("row", .obj u.Row)])

/-- operation.go MutateOperation. -/
structure MutateOperation where
  Table : ID
  Where : List Condition
  Mutations : List Mutation

/-- MutateOperation.MarshalJSON: validates Table, Where, Mutations, every
condition and every mutation, then emits `op, table, where, mutations`. -/
def MutateOperation.MarshalJSON (mutate : MutateOperation) : Except MarshalErr Json :=
  if mutate.Table.length = 0 then .error (.requiredField "Table")
  else if mutate.Where.length = 0 then .error (.requiredField "Where")
  else if mutate.Mutations.length = 0 then .error (.requiredField "Mutations")
  else
    match mutate.Where.find? (fun c => !c.Valid) with
    | some cond => .error (.invalidCondition cond.asErrPayload)
    | none =>
        match mutate.Mutations.find? (fun m => !m.Valid) with
        | some mu => .error (.invalidMutation mu.asErrPayload)
        | none =>
            .ok (.obj [("op", .str "mutate"), ("table", .str mutate.Table),
              ("where", .arr (mutate.Where.map Condition.MarshalJSON)),
              ("mutations", .arr (mutate.Mutations.map Mutation.MarshalJSON))])

/-- schema.go AtomicType: one of the five scalar type names, carried as a
plain string as in the source. -/
abbrev AtomicType := String

/-- Decode of a JSON member into a Go bool field: encoding/json records a
type error and skips the field (null is a no-op for primitives). -/
def decodeBoolMember (cur : Bool) : Json → Option DecodeErr × Bool
  | .bool b => (none, b)
  | .null => (none, cur)
  | _ => (some (.typeErr "bool"), cur)

/-- Decode of a JSON member into a Go int (or float64) field; numbers are
modelled as integers throughout. -/
def decodeIntMember (cur : Int) : Json → Option DecodeErr × Int
  | .num n => (none, n)
  | .null => (none, cur)
  | _ => (some (.typeErr "int"), cur)

/-- Decode of a JSON member into a Go string field. -/
def decodeStringMember (cur : String) : Json → Option DecodeErr × String
  | .str s => (none, s)
  | .null => (none, cur)
  | _ => (some (.typeErr "string"), cur)

/-- encoding/json keeps the first saved type error of a decode. -/
def keepFirst (saved e : Option DecodeErr) : Option DecodeErr :=
  match saved with
  | some _ => saved
  | none => e

/-- schema.go IntOrString: an int or a string (the `max` cardinality).
The source field `Int` is a Lean builtin name, so it is rendered IntVal. -/
structure IntOrString where
  IsInt : Bool := false
  IntVal : Int := 0
  Str : String := ""
deriving DecidableEq, Repr

/-- IntOrString.UnmarshalJSON: peek for a leading quote; a string selects
the Str branch, anything else is unmarshalled into the Int field (with the
IsInt flag set before the unmarshal, as in the source, so it sticks even
when the unmarshal then fails). -/
def IntOrString.UnmarshalJSON (intstr : IntOrString) (value : Json) :
    Option DecodeErr × IntOrString :=
  match value with
  | .str s => (none, { intstr with IsInt := false, Str := s })
  | .num n => (none, { intstr with IsInt := true, IntVal := n })
  | .null => (none, { intstr with IsInt := true })
  | _ => (some (.typeErr "int"), { intstr with IsInt := true })

/-- schema.go JSONBaseType: the compound key/value element type.  The
source field `Type` is a Lean keyword, so it is rendered Typ; the float64
bounds are modelled as integers. -/
structure JSONBaseType where
  Typ : AtomicType := ""
  Enum : Set := {}
  MinInteger : Int := 0
  MaxInteger : Int := 0
  MinReal : Int := 0
  MaxReal : Int := 0
  MinLength : Int := 0
  MaxLength : Int := 0
  RefTable : ID := ""
  RefType : String := ""

/-- The member loop of the object decode of JSONBaseType: recognized
members are decoded into their fields in input order; a type error on a
primitive field is saved (first one kept) and decoding continues; an error
from the custom Set decoder of `enum` aborts the decode. -/
def JSONBaseType.decodeMembers (st : JSONBaseType) (saved : Option DecodeErr) :
    List (String × Json) → Option DecodeErr × JSONBaseType
  | [] => (saved, st)
  | (k, v) :: rest =>
      if k = "type" then
        match decodeStringMember st.Typ v with
        | (e, s) => JSONBaseType.decodeMembers { st with Typ := s } (keepFirst saved e) rest
      else if k = "enum" then
        match Set.UnmarshalJSON st.Enum v with
        | (some e, s2) => (some e, { st with Enum := s2 })
        | (none, s2) => JSONBaseType.decodeMembers { st with Enum := s2 } saved rest
      else if k = "minInteger" then
        match decodeIntMember st.MinInteger v with
        | (e, n) => JSONBaseType.decodeMembers { st with MinInteger := n } (keepFirst saved e) rest
      else if k = "maxInteger" then
        match decodeIntMember st.MaxInteger v with
        | (e, n) => JSONBaseType.decodeMembers { st with MaxInteger := n } (keepFirst saved e) rest
      else if k = "minReal" then
        match decodeIntMember st.MinReal v with
        | (e, n) => JSONBaseType.decodeMembers { st with MinReal := n } (keepFirst saved e) rest
      else if k = "maxReal" then
        match decodeIntMember st.MaxReal v with
        | (e, n) => JSONBaseType.decodeMembers { st with MaxReal := n } (keepFirst saved e) rest
      else if k = "minLength" then
        match decodeIntMember st.MinLength v with
        | (e, n) => JSONBaseType.decodeMembers { st with MinLength := n } (keepFirst saved e) rest
      else if k = "maxLength" then
        match decodeIntMember st.MaxLength v with
        | (e, n) => JSONBaseType.decodeMembers { st with MaxLength := n } (keepFirst saved e) rest
      else if k = "refTable" then
        match decodeStringMember st.RefTable v with
        | (e, s) => JSONBaseType.decodeMembers { st with RefTable := s } (keepFirst saved e) rest
      else if k = "refType" then
        match decodeStringMember st.RefType v with
        | (e, s) => JSONBaseType.decodeMembers { st with RefType := s } (keepFirst saved e) rest
      else JSONBaseType.decodeMembers st saved rest

/-- Object decode of JSONBaseType: the input must be an object (null is a
no-op; anything else is the type error the object decoder reports). -/
def JSONBaseType.decodeObj (st : JSONBaseType) (value : Json) :
    Option DecodeErr × JSONBaseType :=
  match value with
  | .obj fields => JSONBaseType.decodeMembers st none fields
  | .null => (none, st)
  | _ => (some (.typeErr "JSONBaseType"), st)

/-- schema.go AtomicOrJSONBaseType: the tagged union for a key or value
element type. -/
structure AtomicOrJSONBaseType where
  IsAtomic : Bool := false
  Atomic : AtomicType := ""
  JSON : JSONBaseType := {}

/-- AtomicOrJSONBaseType.UnmarshalJSON: a leading quote selects the atomic
branch; any other value is decoded as the JSON object branch (the IsAtomic
flag is written before the inner unmarshal, as in the source). -/
def AtomicOrJSONBaseType.UnmarshalJSON (atomjson : AtomicOrJSONBaseType)
    (value : Json) : Option DecodeErr × AtomicOrJSONBaseType :=
  match value with
  | .str s => (none, { atomjson with IsAtomic := true, Atomic := s })
  | _ =>
      match JSONBaseType.decodeObj atomjson.JSON value with
      | (e, j) => (e, { atomjson with IsAtomic := false, JSON := j })

/-- schema.go JSONColumnType: the compound column type descriptor. -/
structure JSONColumnType where
  Key : AtomicOrJSONBaseType := {}
  Value : AtomicOrJSONBaseType := {}
  Min : Int := 0
  Max : IntOrString := {}

/-- The member loop of the object decode of JSONColumnType: `key`, `value`
and `max` go through custom decoders whose errors abort the decode, `min`
is a primitive field whose type error is saved. -/
def JSONColumnType.decodeMembers (st : JSONColumnType) (saved : Option DecodeErr) :
    List (String × Json) → Option DecodeErr × JSONColumnType
  | [] => (saved, st)
  | (k, v) :: rest =>
      if k = "key" then
        match AtomicOrJSONBaseType.UnmarshalJSON st.Key v with
        | (some e, t2) => (some e, { st with Key := t2 })
        | (none, t2) => JSONColumnType.decodeMembers { st with Key := t2 } saved rest
      else if k = "value" then
        match AtomicOrJSONBaseType.UnmarshalJSON st.Value v with
        | (some e, t2) => (some e, { st with Value := t2 })
        | (none, t2) => JSONColumnType.decodeMembers { st with Value := t2 } saved rest
      else if k = "min" then
        match decodeIntMember st.Min v with
        | (e, n) => JSONColumnType.decodeMembers { st with Min := n } (keepFirst saved e) rest
      else if k = "max" then
        match IntOrString.UnmarshalJSON st.Max v with
        | (some e, t2) => (some e, { st with Max := t2 })
        | (none, t2) => JSONColumnType.decodeMembers { st with Max := t2 } saved rest
      else JSONColumnType.decodeMembers st saved rest

/-- Object decode of JSONColumnType. -/
def JSONColumnType.decodeObj (st : JSONColumnType) (value : Json) :
    Option DecodeErr × JSONColumnType :=
  match value with
  | .obj fields => JSONColumnType.decodeMembers st none fields
  | .null => (none, st)
  | _ => (some (.typeErr "JSONColumnType"), st)

/-- schema.go AtomicOrJSONColumnType: the tagged union for the type of a
database column. -/
structure AtomicOrJSONColumnType where
  IsAtomic : Bool := false
  Atomic : AtomicType := ""
  JSON : JSONColumnType := {}

/-- AtomicOrJSONColumnType.UnmarshalJSON: a leading quote selects the
atomic branch; any other value is decoded as the JSON object branch. -/
def AtomicOrJSONColumnType.UnmarshalJSON (atomjson : AtomicOrJSONColumnType)
    (value : Json) : Option DecodeErr × AtomicOrJSONColumnType :=
  match value with
  | .str s => (none, { atomjson with IsAtomic := true, Atomic := s })
  | _ =>
      match JSONColumnType.decodeObj atomjson.JSON value with
      | (e, j) => (e, { atomjson with IsAtomic := false, JSON := j })

/-- schema.go ColumnSchema: the column type plus the Ephemeral and Mutable
flags.  The field defaults are the Go zero value, which is what a
ColumnSchema constructed directly by code starts from. -/
structure ColumnSchema where
  Typ : AtomicOrJSONColumnType := {}
  Ephemeral : Bool := false
  Mutable : Bool := false

/-- The member loop of the object decode of the aliasColumnSchema: `type`
goes through the custom column-type decoder whose error aborts the decode,
`ephemeral` and `mutable` are primitive fields with saved type errors. -/
def ColumnSchema.decodeMembers (st : ColumnSchema) (saved : Option DecodeErr) :
    List (String × Json) → Option DecodeErr × ColumnSchema
  | [] => (saved, st)
  | (k, v) :: rest =>
      if k = "type" then
        match AtomicOrJSONColumnType.UnmarshalJSON st.Typ v with
        | (some e, t2) => (some e, { st with Typ := t2 })
        | (none, t2) => ColumnSchema.decodeMembers { st with Typ := t2 } saved rest
      else if k = "ephemeral" then
        match decodeBoolMember st.Ephemeral v with
        | (e, b) => ColumnSchema.decodeMembers { st with Ephemeral := b } (keepFirst saved e) rest
      else if k = "mutable" then
        match decodeBoolMember st.Mutable v with
        | (e, b) => ColumnSchema.decodeMembers { st with Mutable := b } (keepFirst saved e) rest
      else ColumnSchema.decodeMembers st saved rest

/-- Object decode of the aliasColumnSchema value. -/
def ColumnSchema.aliasDecode (st : ColumnSchema) (value : Json) :
    Option DecodeErr × ColumnSchema :=
  match value with
  | .obj fields => ColumnSchema.decodeMembers st none fields
  | .null => (none, st)
  | _ => (some (.typeErr "aliasColumnSchema"), st)

/-- schema.go ColumnSchema.UnmarshalJSON: start from an alias value whose
Mutable is preset to true (the OVSDB wire default), unmarshal into it with
the error explicitly discarded (`_ = json.Unmarshal(value, &alias)`), and
overwrite the receiver.  The method always returns nil. -/
def ColumnSchema.UnmarshalJSON (_cs : ColumnSchema) (value : Json) :
    Option DecodeErr × ColumnSchema :=
  (none, (ColumnSchema.aliasDecode { Mutable := true } value).2)

/-- notification.go RowUpdate: old row (delete/modify) and new row
(initial/insert/modify); `none` models the absent (nil) map. -/
structure RowUpdate where
  Old : Option Row := none
  New : Option Row := none

/-- TableUpdate: row UUID to RowUpdate. -/
abbrev TableUpdate := List (String × RowUpdate)

/-- TableUpdates: table name to TableUpdate. -/
abbrev TableUpdates := List (String × TableUpdate)

/-- Decode of an `old`/`new` member into a Row field: an object fills the
map, null is a no-op, anything else is a decode error. -/
def decodeRowMember (cur : Option Row) : Json → Option (Option Row)
  | .obj fields => some (some fields)
  | .null => some cur
  | _ => none

/-- Decode of one RowUpdate object. -/
def decodeRowUpdate : Json → Option RowUpdate
  | .obj fields =>
      fields.foldlM (fun (st : RowUpdate) kv =>
        if kv.1 = "old" then (decodeRowMember st.Old kv.2).map (fun r => { st with Old := r })
        else if kv.1 = "new" then (decodeRowMember st.New kv.2).map (fun r => { st with New := r })
        else some st) {}
  | .null => some {}
  | _ => none

/-- Decode of one TableUpdate object (row UUID keys kept as strings). -/
def decodeTableUpdate : Json → Option TableUpdate
  | .obj fields =>
      fields.mapM (fun kv => (decodeRowUpdate kv.2).map (fun ru => (kv.1, ru)))
  | .null => some []
  | _ => none

/-- Decode of the `<table-updates>` notification parameter.  The source
re-marshals the decoded parameter and unmarshals the bytes into the
TableUpdates value; on a JSON tree that composition is a direct decode of
the tree.  A shape violation yields a non-nil error (modelled `none`). -/
def decodeTableUpdates : Json → Option TableUpdates
  | .obj fields =>
      fields.mapM (fun kv => (decodeTableUpdate kv.2).map (fun tu => (kv.1, tu)))
  | .null => some []
  | _ => none

/-- client.go Client, reduced to the field that notification dispatch
reads: the currently registered NotificationHandler, named by an abstract
identity.  The rpc and schema-cache fields play no part in dispatch. -/
structure Client where
  handler : Nat

/-- The process-wide clientsMap keyed by the rpc2 connection identity. -/
abbrev ClientsMap := Nat → Option Client

/-- The clientsMap insertion performed by Dial for a fresh connection. -/
def dialRegister (m : ClientsMap) (conn : Nat) (c : Client) : ClientsMap :=
  fun n => if n = conn then some c else m n

/-- What one run of the `update` notification handler does: return an
error for malformed parameters or an undecodable payload, invoke the found
Client's handler with the decoded arguments, or (when no Client owns the
connection) drop the notification returning nil. -/
inductive Dispatch where
  | errParams
  | errDecode
  | delivered (handler : Nat) (jsonValue : Json) (updates : TableUpdates)
  | dropped

/-- notification.go updateHandler: check the parameter count, decode the
table updates, look the connection up in clientsMap under the read lock,
and either invoke the owning Client's current handler or silently drop. -/
def updateHandler (clientsMap : ClientsMap) (conn : Nat) (params : List Json) :
    Dispatch :=
  if params.length ≠ 2 then .errParams
  else
    match decodeTableUpdates (params.getD 1 .null) with
    | none => .errDecode
    | some tableUpdates =>
        match clientsMap conn with
        | some ovsClient => .delivered ovsClient.handler (params.getD 0 .null) tableUpdates
        | none => .dropped

/-! ## Theorems -/

/-- C1: the left-to-right classification of a transact reply.  The claim's
own 3-element scenario (success object, error object, null) decodes to
[raw success, Error, not-attempted] with Errors = [that Error], as the
second conjunct shows.  The first conjunct evaluates the decoder at a
reply whose second element is a success object following an error object:
because the scratch map is declared outside the loop and Go merges objects
into a non-nil map, the stale `error`/`details` entries survive and the
success object is classified as the previous element's Error, appended to
both Results and Errors — not kept as its raw payload. -/
theorem c1_transact_classification_bug :
    TransactResult.UnmarshalJSON {}
      (.arr [.obj [("error", .str "e"), ("details", .str "d")],
             .obj [("count", .num 0)]])
      = .done none { Results := [.remoteError ⟨"e", "d"⟩, .remoteError ⟨"e", "d"⟩],
                     Errors := [⟨"e", "d"⟩, ⟨"e", "d"⟩] }
  ∧ TransactResult.UnmarshalJSON {}
      (.arr [.obj [("uuid", .str "u")],
             .obj [("error", .str "e"), ("details", .str "d")],
             .null])
      = .done none { Results := [.raw (.obj [("uuid", .str "u")]),
                                 .remoteError ⟨"e", "d"⟩, .notAttempted],
                     Errors := [⟨"e", "d"⟩] } :=
  ⟨rfl, rfl⟩

/-- C9: TransactResult decoding is total only when each error-classified
object carries string `error` and `details` members: an object with an
`error` key but a missing `details` member, a non-string `error` value, or
a non-string `details` value makes the unguarded type assertions panic
instead of returning an error. -/
theorem c9_transact_panic :
    TransactResult.UnmarshalJSON {} (.arr [.obj [("error", .str "e")]]) = .panicked
  ∧ TransactResult.UnmarshalJSON {}
      (.arr [.obj [("error", .num 5), ("details", .str "d")]]) = .panicked
  ∧ TransactResult.UnmarshalJSON {}
      (.arr [.obj [("error", .str "e"), ("details", .num 7)]]) = .panicked :=
  ⟨rfl, rfl, rfl⟩

/-- C2 counterexample: a 1-element Set whose element is itself a JSON
array (as every uuid atom is) does not survive the round trip — the
encoder collapses it to the bare element, and the decoder then takes the
array branch and fails with errNotSet instead of reproducing the set. -/
theorem c2_set_roundtrip_counterexample :
    ¬ (Set.UnmarshalJSON {} (Set.MarshalJSON { Values := [Json.arr []] })
        = (none, { Values := [Json.arr []] })) := by
  intro h
  exact Option.noConfusion (congrArg Prod.fst h)

/-- C2 amended: decode after encode is the identity for every Set with
zero or at least two elements (order preserved); a 1-element Set encodes
to the bare element, and when that element is not itself a JSON array,
decoding the bare element reproduces the 1-element Set. -/
theorem c2_set_roundtrip (vs : List Json) (x : Json) :
    (vs.length ≠ 1 →
      Set.UnmarshalJSON {} (Set.MarshalJSON { Values := vs }) = (none, { Values := vs }))
  ∧ (x.isArr = false →
      Set.MarshalJSON { Values := [x] } = x
      ∧ Set.UnmarshalJSON {} x = (none, { Values := [x] })) := by
  constructor
  · intro h
    match vs with
    | [] => rfl
    | [a] => exact absurd rfl h
    | a :: b :: t => rfl
  · intro hx
    match x with
    | .arr es => exact absurd hx (by simp [Json.isArr])
    | .null => exact ⟨rfl, rfl⟩
    | .bool b => exact ⟨rfl, rfl⟩
    | .num n => exact ⟨rfl, rfl⟩
    | .str s => exact ⟨rfl, rfl⟩
    | .obj ms => exact ⟨rfl, rfl⟩

/-- C2 witness: the amended round trip evaluated at a 2-element set and at
a 1-element set holding a bare string. -/
theorem c2_set_roundtrip_witness :
    Set.UnmarshalJSON {} (Set.MarshalJSON { Values := [.num 1, .num 2] })
      = (none, { Values := [.num 1, .num 2] })
  ∧ Set.MarshalJSON { Values := [.str "a"] } = .str "a"
  ∧ Set.UnmarshalJSON {} (.str "a") = (none, { Values := [.str "a"] }) :=
  ⟨(c2_set_roundtrip [.num 1, .num 2] (.str "a")).1 (by decide),
   ((c2_set_roundtrip [.num 1, .num 2] (.str "a")).2 rfl).1,
   ((c2_set_roundtrip [.num 1, .num 2] (.str "a")).2 rfl).2⟩

/-- The StringSet element loop on an all-string input appends every
element after the accumulator. -/
theorem stringSetLoop_strings (vs : List String) :
    ∀ acc, StringSet.loopDecode acc (vs.map .str) = (none, acc ++ vs) := by
  induction vs with
  | nil => intro acc; simp [StringSet.loopDecode]
  | cons v t ih =>
      intro acc
      rw [List.map_cons]
      show StringSet.loopDecode (acc ++ [v]) (t.map .str) = (none, acc ++ v :: t)
      rw [ih]
      simp

/-- C10: decoding a tagged string set of n ≥ 1 elements succeeds but
returns 2n values — the n empty strings from the `make` call followed by
the elements — so decode after encode differs from the original for every
StringSet of at least two elements, while the same wire input decoded as a
generic Set yields exactly the n elements. -/
theorem c10_stringset_length_bug (vs : List String) (h1 : 1 ≤ vs.length) :
    StringSet.UnmarshalJSON {} (.arr [.str "set", .arr (vs.map .str)])
      = (none, { Values := List.replicate vs.length "" ++ vs })
  ∧ (List.replicate vs.length "" ++ vs).length = 2 * vs.length
  ∧ (2 ≤ vs.length →
      StringSet.UnmarshalJSON {} (StringSet.MarshalJSON { Values := vs })
        ≠ (none, ({ Values := vs } : StringSet)))
  ∧ Set.UnmarshalJSON {} (.arr [.str "set", .arr (vs.map .str)])
      = (none, { Values := vs.map .str }) := by
  have hdec : StringSet.UnmarshalJSON {} (.arr [.str "set", .arr (vs.map .str)])
      = (none, { Values := List.replicate vs.length "" ++ vs }) := by
    show (match StringSet.loopDecode (List.replicate (List.map Json.str vs).length "")
            (List.map Json.str vs) with
          | (err, vals) => (err, ({ Values := vals } : StringSet)))
        = (none, { Values := List.replicate vs.length "" ++ vs })
    rw [List.length_map, stringSetLoop_strings]
  refine ⟨hdec, by simp [Nat.two_mul], ?_, rfl⟩
  intro h2 heq
  match vs, h2 with
  | x :: y :: t, _ =>
      have hm : StringSet.MarshalJSON { Values := x :: y :: t }
          = .arr [.str "set", .arr ((x :: y :: t).map .str)] := rfl
      rw [hm, hdec] at heq
      have hv : List.replicate (x :: y :: t).length "" ++ x :: y :: t = x :: y :: t :=
        congrArg StringSet.Values (congrArg Prod.snd heq)
      have hlen := congrArg List.length hv
      simp at hlen

/-- C10 witness: the length bug evaluated at the 2-element string set. -/
theorem c10_stringset_length_bug_witness :
    StringSet.UnmarshalJSON {} (.arr [.str "set", .arr [.str "a", .str "b"]])
      = (none, { Values := ["", "", "a", "b"] })
  ∧ StringSet.UnmarshalJSON {} (StringSet.MarshalJSON { Values := ["a", "b"] })
      ≠ (none, ({ Values := ["a", "b"] } : StringSet)) :=
  ⟨(c10_stringset_length_bug ["a", "b"] (by decide)).1,
   (c10_stringset_length_bug ["a", "b"] (by decide)).2.2.1 (by decide)⟩

/-- The pairs collected from the longest prefix of well-formed 2-element
pair arrays of a map payload. -/
def mapPairsPrefix : List Json → List MapPair
  | [] => []
  | .arr [k, v] :: rest => (k, v) :: mapPairsPrefix rest
  | _ :: _ => []

/-- Whether every element of a map payload is a 2-element pair array. -/
def mapPairsOk : List Json → Bool
  | [] => true
  | .arr [_, _] :: rest => mapPairsOk rest
  | _ :: _ => false

/-- The Map pair loop appends exactly the pairs of the well-formed prefix
after the accumulator and fails iff some element is not a 2-element pair
array. -/
theorem mapLoop_spec (l : List Json) :
    ∀ acc, Map.loopDecode acc l
      = (if mapPairsOk l then none else some .notMap, acc ++ mapPairsPrefix l) := by
  induction l with
  | nil => intro acc; simp [Map.loopDecode, mapPairsOk, mapPairsPrefix]
  | cons v rest ih =>
      intro acc
      match v with
      | .null => simp [Map.loopDecode, mapPairsOk, mapPairsPrefix]
      | .bool b => simp [Map.loopDecode, mapPairsOk, mapPairsPrefix]
      | .num n => simp [Map.loopDecode, mapPairsOk, mapPairsPrefix]
      | .str s => simp [Map.loopDecode, mapPairsOk, mapPairsPrefix]
      | .obj ms => simp [Map.loopDecode, mapPairsOk, mapPairsPrefix]
      | .arr [] => simp [Map.loopDecode, mapPairsOk, mapPairsPrefix]
      | .arr [a] => simp [Map.loopDecode, mapPairsOk, mapPairsPrefix]
      | .arr [a, b] =>
          show Map.loopDecode (acc ++ [(a, b)]) rest = _
          rw [ih]
          simp [mapPairsOk, mapPairsPrefix]
      | .arr (a :: b :: c :: r) => simp [Map.loopDecode, mapPairsOk, mapPairsPrefix]

/-- C4 counterexample: a Map payload whose second pair is a 1-element
array fails the decode with errNotMap, yet the first pair is left stored
in the target — the failing decode partially populates the target value,
contradicting the claim. -/
theorem c4_map_partial_population_counterexample :
    ¬ (∀ err m2, Map.UnmarshalJSON {}
          (.arr [.str "map", .arr [.arr [.num 1, .num 2], .arr [.num 3]]])
          = (some err, m2) → m2.Values = []) := by
  intro h
  have h2 := h .notMap { Values := [(.num 1, .num 2)] } rfl
  exact List.noConfusion h2

/-- Whether every element of a string-set payload is a JSON string. -/
def allStrings : List Json → Bool
  | [] => true
  | .str _ :: rest => allStrings rest
  | _ :: _ => false

/-- The strings of a string-set payload up to its first non-string. -/
def stringPrefix : List Json → List String
  | .str s :: rest => s :: stringPrefix rest
  | _ => []

/-- The wire shapes the Set decoder accepts without error, written flat:
any non-array (read as a 1-element atomic set), or an exactly-2-element
array of the `set` magic string and an array payload. -/
def setWireOk : Json → Bool
  | .arr [ma, snd] =>
      (match ma with
       | .str m => (match snd with | .arr _ => m = "set" | _ => false)
       | _ => false)
  | .arr _ => false
  | _ => true

/-- The wire shapes the StringSet decoder accepts without error: a bare
string, null (a no-op on the bare string target), or a tagged array whose
first element reads `set` and whose second is an all-strings array (extra
elements beyond the first two being discarded by the array read). -/
def stringSetWireOk : Json → Bool
  | .str _ => true
  | .null => true
  | .arr ovsSet =>
      (match ovsSet.getD 0 .null with | .str m => m = "set" | _ => false)
      && (match ovsSet.getD 1 .null with
          | .arr values => allStrings values
          | _ => false)
  | _ => false

/-- The wire shapes the Map decoder accepts without error: a tagged array
whose first element reads `map` and whose second is an array of 2-element
pair arrays (extra elements beyond the first two being discarded). -/
def mapWireOk : Json → Bool
  | .arr ovsMap =>
      (match ovsMap.getD 0 .null with | .str m => m = "map" | _ => false)
      && (match ovsMap.getD 1 .null with
          | .arr values => mapPairsOk values
          | _ => false)
  | _ => false

/-- The wire shapes the UUID decoder accepts without error: exactly the
2-element array of the `uuid` magic string and a 36-character string. -/
def uuidWireOk : Json → Bool
  | .arr [ma, ua] =>
      (match ma, ua with
       | .str m, .str u => m = "uuid" && u.length = 36
       | _, _ => false)
  | _ => false

/-- The wire shapes the NamedUUID decoder accepts without error: exactly
the 2-element array of the `named-uuid` magic string and any string. -/
def namedUUIDWireOk : Json → Bool
  | .arr [ma, ua] =>
      (match ma, ua with
       | .str m, .str _ => m = "named-uuid"
       | _, _ => false)
  | _ => false

/-- Reading a payload into Go strings succeeds with exactly the strings of
the payload when all elements are strings, and fails otherwise. -/
theorem decodeStrings_spec (xs : List Json) :
    decodeStrings xs
      = if allStrings xs then .ok (stringPrefix xs)
        else .error (.typeErr "[]string") := by
  induction xs with
  | nil => rfl
  | cons a rest ih =>
      match a with
      | .str s =>
          by_cases hall : allStrings rest
          · show (match decodeStrings rest with
                  | .ok ss => Except.ok (s :: ss)
                  | .error e => Except.error e) = _
            rw [ih, if_pos hall]
            simp [allStrings, stringPrefix, hall]
          · show (match decodeStrings rest with
                  | .ok ss => Except.ok (s :: ss)
                  | .error e => Except.error e) = _
            rw [ih, if_neg hall]
            simp [allStrings, hall]
      | .null => rfl
      | .bool b => rfl
      | .num n => rfl
      | .arr es => rfl
      | .obj ms => rfl

/-- On an all-strings payload the string prefix is the whole payload. -/
theorem stringPrefix_length (xs : List Json) (h : allStrings xs = true) :
    (stringPrefix xs).length = xs.length := by
  induction xs with
  | nil => rfl
  | cons a rest ih =>
      match a with
      | .str s =>
          show (s :: stringPrefix rest).length = (Json.str s :: rest).length
          simp only [List.length_cons]
          exact congrArg (· + 1) (ih h)
      | .null => exact Bool.noConfusion h
      | .bool b => exact Bool.noConfusion h
      | .num n => exact Bool.noConfusion h
      | .arr es => exact Bool.noConfusion h
      | .obj ms => exact Bool.noConfusion h

/-- The StringSet element loop in general: it appends the decoded string
prefix after the accumulator and fails iff a non-string element occurs. -/
theorem stringSetLoop_spec (l : List Json) :
    ∀ acc, StringSet.loopDecode acc l
      = (if allStrings l then none else some .notStringSet,
         acc ++ stringPrefix l) := by
  induction l with
  | nil => intro acc; simp [StringSet.loopDecode, allStrings, stringPrefix]
  | cons a rest ih =>
      intro acc
      match a with
      | .str s =>
          show StringSet.loopDecode (acc ++ [s]) rest = _
          rw [ih]
          simp [allStrings, stringPrefix]
      | .null => simp [StringSet.loopDecode, allStrings, stringPrefix]
      | .bool b => simp [StringSet.loopDecode, allStrings, stringPrefix]
      | .num n => simp [StringSet.loopDecode, allStrings, stringPrefix]
      | .arr es => simp [StringSet.loopDecode, allStrings, stringPrefix]
      | .obj ms => simp [StringSet.loopDecode, allStrings, stringPrefix]

/-- Set decode error totality: the returned error is nil exactly on the
wire shapes the decoder accepts. -/
theorem set_err_iff (s : Set) (v : Json) :
    (Set.UnmarshalJSON s v).1 = none ↔ setWireOk v = true := by
  cases v with
  | null => exact iff_of_true rfl rfl
  | bool b => exact iff_of_true rfl rfl
  | num n => exact iff_of_true rfl rfl
  | str x => exact iff_of_true rfl rfl
  | obj ms => exact iff_of_true rfl rfl
  | arr xs =>
      cases xs with
      | nil =>
          exact iff_of_false (fun h => Option.noConfusion h) (fun h => Bool.noConfusion h)
      | cons a tail =>
          cases tail with
          | nil =>
              exact iff_of_false (fun h => Option.noConfusion h) (fun h => Bool.noConfusion h)
          | cons b tail2 =>
              cases tail2 with
              | cons c tail3 =>
                  exact iff_of_false (fun h => Option.noConfusion h)
                    (fun h => Bool.noConfusion h)
              | nil =>
                  cases a with
                  | str mg =>
                      by_cases hm : mg = "set"
                      · subst hm
                        cases b <;>
                          first
                          | exact iff_of_true rfl rfl
                          | exact iff_of_false (fun h => Option.noConfusion h)
                              (fun h => Bool.noConfusion h)
                      · cases b <;>
                          exact iff_of_false (by simp [Set.UnmarshalJSON, hm])
                            (by simp [setWireOk, hm])
                  | null =>
                      exact iff_of_false (fun h => Option.noConfusion h)
                        (fun h => Bool.noConfusion h)
                  | bool x =>
                      exact iff_of_false (fun h => Option.noConfusion h)
                        (fun h => Bool.noConfusion h)
                  | num x =>
                      exact iff_of_false (fun h => Option.noConfusion h)
                        (fun h => Bool.noConfusion h)
                  | arr es =>
                      exact iff_of_false (fun h => Option.noConfusion h)
                        (fun h => Bool.noConfusion h)
                  | obj ms =>
                      exact iff_of_false (fun h => Option.noConfusion h)
                        (fun h => Bool.noConfusion h)

/-- StringSet decode error totality: the returned error is nil exactly on
the wire shapes the decoder accepts. -/
theorem stringSet_err_iff (ss : StringSet) (v : Json) :
    (StringSet.UnmarshalJSON ss v).1 = none ↔ stringSetWireOk v = true := by
  cases v with
  | null => exact iff_of_true rfl rfl
  | str x => exact iff_of_true rfl rfl
  | bool b => exact iff_of_false (fun h => Option.noConfusion h) (fun h => Bool.noConfusion h)
  | num n => exact iff_of_false (fun h => Option.noConfusion h) (fun h => Bool.noConfusion h)
  | obj ms => exact iff_of_false (fun h => Option.noConfusion h) (fun h => Bool.noConfusion h)
  | arr xs =>
      cases xs with
      | nil =>
          exact iff_of_false (fun h => Option.noConfusion h) (fun h => Bool.noConfusion h)
      | cons a tail =>
          cases tail with
          | nil =>
              cases a with
              | str mg =>
                  by_cases hm : mg = "set"
                  · subst hm
                    exact iff_of_false (fun h => Option.noConfusion h)
                      (fun h => Bool.noConfusion h)
                  · exact iff_of_false (by simp [StringSet.UnmarshalJSON, hm])
                      (by simp [stringSetWireOk, hm])
              | null =>
                  exact iff_of_false (fun h => Option.noConfusion h)
                    (fun h => Bool.noConfusion h)
              | bool x =>
                  exact iff_of_false (fun h => Option.noConfusion h)
                    (fun h => Bool.noConfusion h)
              | num x =>
                  exact iff_of_false (fun h => Option.noConfusion h)
                    (fun h => Bool.noConfusion h)
              | arr es =>
                  exact iff_of_false (fun h => Option.noConfusion h)
                    (fun h => Bool.noConfusion h)
              | obj ms =>
                  exact iff_of_false (fun h => Option.noConfusion h)
                    (fun h => Bool.noConfusion h)
          | cons b tail2 =>
              cases a with
              | str mg =>
                  by_cases hm : mg = "set"
                  · subst hm
                    cases b with
                    | arr values =>
                        have hd : (StringSet.UnmarshalJSON ss
                            (.arr (.str "set" :: .arr values :: tail2))).1
                            = (if allStrings values then none
                               else some DecodeErr.notStringSet) := by
                          show (match StringSet.loopDecode
                                  (List.replicate (values.length) "") values with
                                | (err, vals) =>
                                    (err, ({ Values := vals } : StringSet))).1 = _
                          rw [stringSetLoop_spec]
                        rw [hd]
                        by_cases hall : allStrings values
                        · simp [hall, stringSetWireOk]
                        · simp [hall, stringSetWireOk]
                    | null =>
                        exact iff_of_false (fun h => Option.noConfusion h)
                          (fun h => Bool.noConfusion h)
                    | bool x =>
                        exact iff_of_false (fun h => Option.noConfusion h)
                          (fun h => Bool.noConfusion h)
                    | num x =>
                        exact iff_of_false (fun h => Option.noConfusion h)
                          (fun h => Bool.noConfusion h)
                    | str x =>
                        exact iff_of_false (fun h => Option.noConfusion h)
                          (fun h => Bool.noConfusion h)
                    | obj ms =>
                        exact iff_of_false (fun h => Option.noConfusion h)
                          (fun h => Bool.noConfusion h)
                  · cases b <;>
                      exact iff_of_false (by simp [StringSet.UnmarshalJSON, hm])
                        (by simp [stringSetWireOk, hm])
              | null =>
                  exact iff_of_false (fun h => Option.noConfusion h)
                    (fun h => Bool.noConfusion h)
              | bool x =>
                  exact iff_of_false (fun h => Option.noConfusion h)
                    (fun h => Bool.noConfusion h)
              | num x =>
                  exact iff_of_false (fun h => Option.noConfusion h)
                    (fun h => Bool.noConfusion h)
              | arr es =>
                  exact iff_of_false (fun h => Option.noConfusion h)
                    (fun h => Bool.noConfusion h)
              | obj ms =>
                  exact iff_of_false (fun h => Option.noConfusion h)
                    (fun h => Bool.noConfusion h)

/-- Map decode error totality: the returned error is nil exactly on the
wire shapes the decoder accepts. -/
theorem map_err_iff (m : Map) (v : Json) :
    (Map.UnmarshalJSON m v).1 = none ↔ mapWireOk v = true := by
  cases v with
  | null => exact iff_of_false (fun h => Option.noConfusion h) (fun h => Bool.noConfusion h)
  | str x => exact iff_of_false (fun h => Option.noConfusion h) (fun h => Bool.noConfusion h)
  | bool b => exact iff_of_false (fun h => Option.noConfusion h) (fun h => Bool.noConfusion h)
  | num n => exact iff_of_false (fun h => Option.noConfusion h) (fun h => Bool.noConfusion h)
  | obj ms => exact iff_of_false (fun h => Option.noConfusion h) (fun h => Bool.noConfusion h)
  | arr xs =>
      cases xs with
      | nil =>
          exact iff_of_false (fun h => Option.noConfusion h) (fun h => Bool.noConfusion h)
      | cons a tail =>
          cases tail with
          | nil =>
              cases a with
              | str mg =>
                  by_cases hm : mg = "map"
                  · subst hm
                    exact iff_of_false (fun h => Option.noConfusion h)
                      (fun h => Bool.noConfusion h)
                  · exact iff_of_false (by simp [Map.UnmarshalJSON, hm])
                      (by simp [mapWireOk, hm])
              | null =>
                  exact iff_of_false (fun h => Option.noConfusion h)
                    (fun h => Bool.noConfusion h)
              | bool x =>
                  exact iff_of_false (fun h => Option.noConfusion h)
                    (fun h => Bool.noConfusion h)
              | num x =>
                  exact iff_of_false (fun h => Option.noConfusion h)
                    (fun h => Bool.noConfusion h)
              | arr es =>
                  exact iff_of_false (fun h => Option.noConfusion h)
                    (fun h => Bool.noConfusion h)
              | obj ms =>
                  exact iff_of_false (fun h => Option.noConfusion h)
                    (fun h => Bool.noConfusion h)
          | cons b tail2 =>
              cases a with
              | str mg =>
                  by_cases hm : mg = "map"
                  · subst hm
                    cases b with
                    | arr values =>
                        have hd : (Map.UnmarshalJSON m
                            (.arr (.str "map" :: .arr values :: tail2))).1
                            = (if mapPairsOk values then none
                               else some DecodeErr.notMap) := by
                          show (match Map.loopDecode m.Values values with
                                | (err, vals) => (err, ({ Values := vals } : Map))).1 = _
                          rw [mapLoop_spec]
                        rw [hd]
                        by_cases hall : mapPairsOk values
                        · simp [hall, mapWireOk]
                        · simp [hall, mapWireOk]
                    | null =>
                        exact iff_of_false (fun h => Option.noConfusion h)
                          (fun h => Bool.noConfusion h)
                    | bool x =>
                        exact iff_of_false (fun h => Option.noConfusion h)
                          (fun h => Bool.noConfusion h)
                    | num x =>
                        exact iff_of_false (fun h => Option.noConfusion h)
                          (fun h => Bool.noConfusion h)
                    | str x =>
                        exact iff_of_false (fun h => Option.noConfusion h)
                          (fun h => Bool.noConfusion h)
                    | obj ms =>
                        exact iff_of_false (fun h => Option.noConfusion h)
                          (fun h => Bool.noConfusion h)
                  · cases b <;>
                      exact iff_of_false (by simp [Map.UnmarshalJSON, hm])
                        (by simp [mapWireOk, hm])
              | null =>
                  exact iff_of_false (fun h => Option.noConfusion h)
                    (fun h => Bool.noConfusion h)
              | bool x =>
                  exact iff_of_false (fun h => Option.noConfusion h)
                    (fun h => Bool.noConfusion h)
              | num x =>
                  exact iff_of_false (fun h => Option.noConfusion h)
                    (fun h => Bool.noConfusion h)
              | arr es =>
                  exact iff_of_false (fun h => Option.noConfusion h)
                    (fun h => Bool.noConfusion h)
              | obj ms =>
                  exact iff_of_false (fun h => Option.noConfusion h)
                    (fun h => Bool.noConfusion h)

/-- UUID decode error totality: the returned error is nil exactly on the
wire shapes the decoder accepts. -/
theorem uuid_err_iff (t : String) (v : Json) :
    (UUID.UnmarshalJSON t v).1 = none ↔ uuidWireOk v = true := by
  cases v with
  | null => exact iff_of_false (fun h => Option.noConfusion h) (fun h => Bool.noConfusion h)
  | str x => exact iff_of_false (fun h => Option.noConfusion h) (fun h => Bool.noConfusion h)
  | bool b => exact iff_of_false (fun h => Option.noConfusion h) (fun h => Bool.noConfusion h)
  | num n => exact iff_of_false (fun h => Option.noConfusion h) (fun h => Bool.noConfusion h)
  | obj ms => exact iff_of_false (fun h => Option.noConfusion h) (fun h => Bool.noConfusion h)
  | arr xs =>
      cases xs with
      | nil =>
          exact iff_of_false (fun h => Option.noConfusion h) (fun h => Bool.noConfusion h)
      | cons a tail =>
          cases tail with
          | nil =>
              cases a <;>
                exact iff_of_false (fun h => Option.noConfusion h)
                  (fun h => Bool.noConfusion h)
          | cons b tail2 =>
              cases tail2 with
              | nil =>
                  cases a with
                  | str x =>
                      cases b with
                      | str y =>
                          by_cases hc : x = "uuid" ∧ y.length = 36
                          · refine iff_of_true ?_ ?_
                            · show (if x = "uuid" ∧ y.length = 36
                                  then ((none : Option DecodeErr), y)
                                  else (some DecodeErr.notUUID, t)).1 = none
                              rw [if_pos hc]
                            · simp [uuidWireOk, hc.1, hc.2]
                          · refine iff_of_false ?_ ?_
                            · show ¬ (if x = "uuid" ∧ y.length = 36
                                  then ((none : Option DecodeErr), y)
                                  else (some DecodeErr.notUUID, t)).1 = none
                              rw [if_neg hc]
                              exact fun h => Option.noConfusion h
                            · intro h
                              simp only [uuidWireOk, Bool.and_eq_true,
                                decide_eq_true_eq] at h
                              exact hc h
                      | null =>
                          exact iff_of_false (fun h => Option.noConfusion h)
                            (fun h => Bool.noConfusion h)
                      | bool y =>
                          exact iff_of_false (fun h => Option.noConfusion h)
                            (fun h => Bool.noConfusion h)
                      | num y =>
                          exact iff_of_false (fun h => Option.noConfusion h)
                            (fun h => Bool.noConfusion h)
                      | arr es =>
                          exact iff_of_false (fun h => Option.noConfusion h)
                            (fun h => Bool.noConfusion h)
                      | obj ms =>
                          exact iff_of_false (fun h => Option.noConfusion h)
                            (fun h => Bool.noConfusion h)
                  | null =>
                      exact iff_of_false (fun h => Option.noConfusion h)
                        (fun h => Bool.noConfusion h)
                  | bool x =>
                      exact iff_of_false (fun h => Option.noConfusion h)
                        (fun h => Bool.noConfusion h)
                  | num x =>
                      exact iff_of_false (fun h => Option.noConfusion h)
                        (fun h => Bool.noConfusion h)
                  | arr es =>
                      exact iff_of_false (fun h => Option.noConfusion h)
                        (fun h => Bool.noConfusion h)
                  | obj ms =>
                      exact iff_of_false (fun h => Option.noConfusion h)
                        (fun h => Bool.noConfusion h)
              | cons c tail3 =>
                  refine iff_of_false ?_ (fun h => Bool.noConfusion h)
                  show ¬ (match decodeStrings (a :: b :: c :: tail3) with
                        | Except.error e => (some e, t)
                        | Except.ok ovsUUID =>
                            match ovsUUID with
                            | [magic, u] =>
                                if magic = "uuid" ∧ u.length = 36
                                then ((none : Option DecodeErr), u)
                                else (some DecodeErr.notUUID, t)
                            | _ => (some DecodeErr.notUUID, t)).1 = none
                  rw [decodeStrings_spec]
                  by_cases hall : allStrings (a :: b :: c :: tail3)
                  · rw [if_pos hall]
                    have hlen := stringPrefix_length _ hall
                    rcases hp : stringPrefix (a :: b :: c :: tail3) with
                      _ | ⟨s1, _ | ⟨s2, _ | ⟨s3, l3⟩⟩⟩
                    · rw [hp] at hlen
                      simp at hlen
                    · rw [hp] at hlen
                      simp at hlen
                    · rw [hp] at hlen
                      simp at hlen
                    · exact fun h => Option.noConfusion h
                  · rw [if_neg hall]
                    exact fun h => Option.noConfusion h

/-- NamedUUID decode error totality: the returned error is nil exactly on
the wire shapes the decoder accepts. -/
theorem namedUUID_err_iff (t : String) (v : Json) :
    (NamedUUID.UnmarshalJSON t v).1 = none ↔ namedUUIDWireOk v = true := by
  cases v with
  | null => exact iff_of_false (fun h => Option.noConfusion h) (fun h => Bool.noConfusion h)
  | str x => exact iff_of_false (fun h => Option.noConfusion h) (fun h => Bool.noConfusion h)
  | bool b => exact iff_of_false (fun h => Option.noConfusion h) (fun h => Bool.noConfusion h)
  | num n => exact iff_of_false (fun h => Option.noConfusion h) (fun h => Bool.noConfusion h)
  | obj ms => exact iff_of_false (fun h => Option.noConfusion h) (fun h => Bool.noConfusion h)
  | arr xs =>
      cases xs with
      | nil =>
          exact iff_of_false (fun h => Option.noConfusion h) (fun h => Bool.noConfusion h)
      | cons a tail =>
          cases tail with
          | nil =>
              cases a <;>
                exact iff_of_false (fun h => Option.noConfusion h)
                  (fun h => Bool.noConfusion h)
          | cons b tail2 =>
              cases tail2 with
              | nil =>
                  cases a with
                  | str x =>
                      cases b with
                      | str y =>
                          by_cases hc : x = "named-uuid"
                          · refine iff_of_true ?_ ?_
                            · show (if x = "named-uuid"
                                  then ((none : Option DecodeErr), y)
                                  else (some DecodeErr.notUUID, t)).1 = none
                              rw [if_pos hc]
                            · simp [namedUUIDWireOk, hc]
                          · refine iff_of_false ?_ ?_
                            · show ¬ (if x = "named-uuid"
                                  then ((none : Option DecodeErr), y)
                                  else (some DecodeErr.notUUID, t)).1 = none
                              rw [if_neg hc]
                              exact fun h => Option.noConfusion h
                            · intro h
                              simp only [namedUUIDWireOk, decide_eq_true_eq] at h
                              exact hc h
                      | null =>
                          exact iff_of_false (fun h => Option.noConfusion h)
                            (fun h => Bool.noConfusion h)
                      | bool y =>
                          exact iff_of_false (fun h => Option.noConfusion h)
                            (fun h => Bool.noConfusion h)
                      | num y =>
                          exact iff_of_false (fun h => Option.noConfusion h)
                            (fun h => Bool.noConfusion h)
                      | arr es =>
                          exact iff_of_false (fun h => Option.noConfusion h)
                            (fun h => Bool.noConfusion h)
                      | obj ms =>
                          exact iff_of_false (fun h => Option.noConfusion h)
                            (fun h => Bool.noConfusion h)
                  | null =>
                      exact iff_of_false (fun h => Option.noConfusion h)
                        (fun h => Bool.noConfusion h)
                  | bool x =>
                      exact iff_of_false (fun h => Option.noConfusion h)
                        (fun h => Bool.noConfusion h)
                  | num x =>
                      exact iff_of_false (fun h => Option.noConfusion h)
                        (fun h => Bool.noConfusion h)
                  | arr es =>
                      exact iff_of_false (fun h => Option.noConfusion h)
                        (fun h => Bool.noConfusion h)
                  | obj ms =>
                      exact iff_of_false (fun h => Option.noConfusion h)
                        (fun h => Bool.noConfusion h)
              | cons c tail3 =>
                  refine iff_of_false ?_ (fun h => Bool.noConfusion h)
                  show ¬ (match decodeStrings (a :: b :: c :: tail3) with
                        | Except.error e => (some e, t)
                        | Except.ok ovsNamedUUID =>
                            match ovsNamedUUID with
                            | [magic, u] =>
                                if magic = "named-uuid"
                                then ((none : Option DecodeErr), u)
                                else (some DecodeErr.notUUID, t)
                            | _ => (some DecodeErr.notUUID, t)).1 = none
                  rw [decodeStrings_spec]
                  by_cases hall : allStrings (a :: b :: c :: tail3)
                  · rw [if_pos hall]
                    have hlen := stringPrefix_length _ hall
                    rcases hp : stringPrefix (a :: b :: c :: tail3) with
                      _ | ⟨s1, _ | ⟨s2, _ | ⟨s3, l3⟩⟩⟩
                    · rw [hp] at hlen
                      simp at hlen
                    · rw [hp] at hlen
                      simp at hlen
                    · rw [hp] at hlen
                      simp at hlen
                    · exact fun h => Option.noConfusion h
                  · rw [if_neg hall]
                    exact fun h => Option.noConfusion h

/-- C4 amended: for every malformed wire input the decode returns an error
— the first five conjuncts characterize each decoder's nil-error outcomes
as exactly its accepted wire shapes — but the target is not always left
unmodified: UUID and NamedUUID leave the receiver untouched on every
failure, while a failing Map decode of a tagged payload keeps the pairs
appended before the offending element, a failing StringSet decode of a
tagged payload leaves the partially rebuilt slice (the make-allocated
empty strings followed by the strings before the offending element), and
a Set decode whose tagged second element is not an array zeroes the
receiver's values while returning errNotSet. -/
theorem c4_decode_failure_targets (s : Set) (ss : StringSet) (m : Map)
    (t : String) (v : Json) :
    ((Set.UnmarshalJSON s v).1 = none ↔ setWireOk v = true)
  ∧ ((StringSet.UnmarshalJSON ss v).1 = none ↔ stringSetWireOk v = true)
  ∧ ((Map.UnmarshalJSON m v).1 = none ↔ mapWireOk v = true)
  ∧ ((UUID.UnmarshalJSON t v).1 = none ↔ uuidWireOk v = true)
  ∧ ((NamedUUID.UnmarshalJSON t v).1 = none ↔ namedUUIDWireOk v = true)
  ∧ (∀ values : List Json,
        Map.UnmarshalJSON m (.arr [.str "map", .arr values])
          = (if mapPairsOk values then none else some .notMap,
             { Values := m.Values ++ mapPairsPrefix values }))
  ∧ (∀ values : List Json,
        StringSet.UnmarshalJSON ss (.arr [.str "set", .arr values])
          = (if allStrings values then none else some .notStringSet,
             { Values := List.replicate values.length "" ++ stringPrefix values }))
  ∧ (∀ e, (UUID.UnmarshalJSON t v).1 = some e → (UUID.UnmarshalJSON t v).2 = t)
  ∧ (∀ e, (NamedUUID.UnmarshalJSON t v).1 = some e → (NamedUUID.UnmarshalJSON t v).2 = t)
  ∧ (∀ snd, snd.isArr = false →
        Set.UnmarshalJSON s (.arr [.str "set", snd])
          = (some .notSet, { Values := [] })) := by
  refine ⟨?_, ?_, ?_, ?_, ?_, ?_, ?_, ?_, ?_, ?_⟩
  · exact set_err_iff s v
  · exact stringSet_err_iff ss v
  · exact map_err_iff m v
  · exact uuid_err_iff t v
  · exact namedUUID_err_iff t v
  · intro values
    show (match Map.loopDecode m.Values values with
          | (err, vals) => (err, ({ Values := vals } : Map))) = _
    rw [mapLoop_spec]
  · intro values
    show (match StringSet.loopDecode
            (List.replicate (values.length) "") values with
          | (err, vals) => (err, ({ Values := vals } : StringSet))) = _
    rw [stringSetLoop_spec]
  · intro e h
    unfold UUID.UnmarshalJSON at h ⊢
    match hds : decodeStringSlice v with
    | .error e2 => simp [hds]
    | .ok l =>
        rw [hds] at h
        revert h
        match l with
        | [] => intro h; rfl
        | [a] => intro h; rfl
        | a :: b :: c :: r => intro h; rfl
        | [a, b] =>
            intro h
            have h2 : (if a = "uuid" ∧ b.length = 36 then ((none : Option DecodeErr), b)
                else (some DecodeErr.notUUID, t)).1 = some e := h
            show (if a = "uuid" ∧ b.length = 36 then ((none : Option DecodeErr), b)
                else (some DecodeErr.notUUID, t)).2 = t
            by_cases hc : a = "uuid" ∧ b.length = 36
            · rw [if_pos hc] at h2
              exact Option.noConfusion h2
            · rw [if_neg hc]
  · intro e h
    unfold NamedUUID.UnmarshalJSON at h ⊢
    match hds : decodeStringSlice v with
    | .error e2 => simp [hds]
    | .ok l =>
        rw [hds] at h
        revert h
        match l with
        | [] => intro h; rfl
        | [a] => intro h; rfl
        | a :: b :: c :: r => intro h; rfl
        | [a, b] =>
            intro h
            have h2 : (if a = "named-uuid" then ((none : Option DecodeErr), b)
                else (some DecodeErr.notUUID, t)).1 = some e := h
            show (if a = "named-uuid" then ((none : Option DecodeErr), b)
                else (some DecodeErr.notUUID, t)).2 = t
            by_cases hc : a = "named-uuid"
            · rw [if_pos hc] at h2
              exact Option.noConfusion h2
            · rw [if_neg hc]
  · intro snd hsnd
    match snd with
    | .arr es => simp [Json.isArr] at hsnd
    | .null => rfl
    | .bool x => rfl
    | .num x => rfl
    | .str x => rfl
    | .obj ms => rfl

/-- C4 witness: the Map and StringSet characterizations evaluated at
failing payloads showing the retained partial state, the UUID and
NamedUUID clauses at a numeric input, and the Set clause at a tagged
input whose second element is a string, clearing a non-empty receiver. -/
theorem c4_decode_failure_targets_witness :
    Map.UnmarshalJSON {} (.arr [.str "map", .arr [.arr [.num 1, .num 2], .arr [.num 3]]])
      = (some .notMap, { Values := [(.num 1, .num 2)] })
  ∧ (UUID.UnmarshalJSON "keep" (.num 3)).2 = "keep"
  ∧ (NamedUUID.UnmarshalJSON "keep" (.num 3)).2 = "keep"
  ∧ StringSet.UnmarshalJSON { Values := ["old"] } (.arr [.str "set", .arr [.str "a", .num 5]])
      = (some .notStringSet, { Values := ["", "", "a"] })
  ∧ Set.UnmarshalJSON { Values := [.str "x"] } (.arr [.str "set", .str "oops"])
      = (some .notSet, { Values := [] }) :=
  ⟨(c4_decode_failure_targets {} {} {} "keep" (.num 3)).2.2.2.2.2.1
      [.arr [.num 1, .num 2], .arr [.num 3]],
   (c4_decode_failure_targets {} {} {} "keep" (.num 3)).2.2.2.2.2.2.2.1
      (.typeErr "[]string") rfl,
   (c4_decode_failure_targets {} {} {} "keep" (.num 3)).2.2.2.2.2.2.2.2.1
      (.typeErr "[]string") rfl,
   (c4_decode_failure_targets {} { Values := ["old"] } {} "keep" (.num 3)).2.2.2.2.2.2.1
      [.str "a", .num 5],
   (c4_decode_failure_targets { Values := [.str "x"] } {} {} "keep" (.num 3)).2.2.2.2.2.2.2.2.2
      (.str "oops") rfl⟩

/-- A Go string has length 0 exactly when it is the empty string. -/
theorem string_length_eq_zero (s : String) : s.length = 0 ↔ s = "" := by
  constructor
  · intro h
    cases s with
    | mk data =>
        cases data with
        | nil => rfl
        | cons a t => simp [String.length] at h
  · intro h
    subst h
    rfl

/-- Validation loops return no offending element exactly when every
element satisfies the validity predicate. -/
theorem find_not_none_iff {α} (p : α → Bool) (l : List α) :
    l.find? (fun x => !p x) = none ↔ ∀ x ∈ l, p x = true := by
  rw [List.find?_eq_none]
  simp

/-- C5: encoding an InsertOperation with a non-empty Table and a non-nil
Row succeeds with exactly the object op, table, row in that key order,
`uuid-name` appended only when UUIDName is non-empty and entirely absent
otherwise; an empty Table or a nil Row fails with the required-field
error and produces no output. -/
theorem c5_insert_marshal (ins : InsertOperation) :
    (∀ r, ins.Row = some r → ins.Table ≠ "" →
        InsertOperation.MarshalJSON ins
          = .ok (.obj ([("op", .str "insert"), ("table", .str ins.Table),
              ("row", .obj r)] ++
              (if ins.UUIDName = "" then []
               else [("uuid-name", .str ins.UUIDName)]))))
  ∧ (ins.Table = "" →
      InsertOperation.MarshalJSON ins = .error (.requiredField "Table"))
  ∧ (ins.Table ≠ "" → ins.Row = none →
      InsertOperation.MarshalJSON ins = .error (.requiredField "Row")) := by
  refine ⟨?_, ?_, ?_⟩
  · intro r hrow ht
    have h1 : ¬ ins.Table.length = 0 := fun h => ht ((string_length_eq_zero _).mp h)
    simp [InsertOperation.MarshalJSON, h1, hrow, string_length_eq_zero]
  · intro ht
    have h1 : ins.Table.length = 0 := (string_length_eq_zero _).mpr ht
    simp [InsertOperation.MarshalJSON, h1]
  · intro ht hrow
    have h1 : ¬ ins.Table.length = 0 := fun h => ht ((string_length_eq_zero _).mp h)
    simp [InsertOperation.MarshalJSON, h1, hrow]

/-- C5 witness: the insert encoding at the test vectors of the repository
(with and without a uuid-name, and the two failing shapes). -/
theorem c5_insert_marshal_witness :
    InsertOperation.MarshalJSON ⟨"T", some [("c", .str "v")], ""⟩
      = .ok (.obj [("op", .str "insert"), ("table", .str "T"),
          ("row", .obj [("c", .str "v")])])
  ∧ InsertOperation.MarshalJSON ⟨"T", some [("c", .str "v")], "n"⟩
      = .ok (.obj [("op", .str "insert"), ("table", .str "T"),
          ("row", .obj [("c", .str "v")]), ("uuid-name", .str "n")])
  ∧ InsertOperation.MarshalJSON ⟨"", some [("c", .str "v")], ""⟩
      = .error (.requiredField "Table")
  ∧ InsertOperation.MarshalJSON ⟨"T", none, ""⟩ = .error (.requiredField "Row") :=
  ⟨(c5_insert_marshal ⟨"T", some [("c", .str "v")], ""⟩).1 [("c", .str "v")] rfl
      (by decide),
   (c5_insert_marshal ⟨"T", some [("c", .str "v")], "n"⟩).1 [("c", .str "v")] rfl
      (by decide),
   (c5_insert_marshal ⟨"", some [("c", .str "v")], ""⟩).2.1 rfl,
   (c5_insert_marshal ⟨"T", none, ""⟩).2.2 (by decide) rfl⟩

/-- C6: Select, Update and Mutate encoding succeeds exactly when all the
required fields are present (Table; Where for all three; Row for Update;
Mutations for Mutate) and every condition function / mutation mutator is
in its enumerated set; otherwise it fails with no output, an out-of-set
condition or mutation being reported in a validation error that names it. -/
theorem c6_operation_validation (s : SelectOperation) (u : UpdateOperation)
    (mu : MutateOperation) :
    ((∃ j, SelectOperation.MarshalJSON s = .ok j) ↔
        (s.Table ≠ "" ∧ s.Where ≠ [] ∧ ∀ c ∈ s.Where, c.Valid = true))
  ∧ (∀ cp, SelectOperation.MarshalJSON s = .error (.invalidCondition cp) →
        ∃ c ∈ s.Where, c.Valid = false ∧ cp = c.asErrPayload)
  ∧ ((∃ j, UpdateOperation.MarshalJSON u = .ok j) ↔
        (u.Table ≠ "" ∧ u.Where ≠ [] ∧ u.Row ≠ [] ∧ ∀ c ∈ u.Where, c.Valid = true))
  ∧ (∀ cp, UpdateOperation.MarshalJSON u = .error (.invalidCondition cp) →
        ∃ c ∈ u.Where, c.Valid = false ∧ cp = c.asErrPayload)
  ∧ ((∃ j, MutateOperation.MarshalJSON mu = .ok j) ↔
        (mu.Table ≠ "" ∧ mu.Where ≠ [] ∧ mu.Mutations ≠ []
          ∧ (∀ c ∈ mu.Where, c.Valid = true) ∧ ∀ m ∈ mu.Mutations, m.Valid = true))
  ∧ (∀ mp, MutateOperation.MarshalJSON mu = .error (.invalidMutation mp) →
        ∃ m ∈ mu.Mutations, m.Valid = false ∧ mp = m.asErrPayload) := by
  refine ⟨?_, ?_, ?_, ?_, ?_, ?_⟩
  · unfold SelectOperation.MarshalJSON
    by_cases h1 : s.Table.length = 0
    · simp [h1, (string_length_eq_zero _).mp h1]
    · by_cases h2 : s.Where.length = 0
      · simp [h1, h2, List.length_eq_zero.mp h2]
      · cases hf : s.Where.find? (fun c => !c.Valid) with
        | some c =>
            have hmem := List.mem_of_find?_eq_some hf
            have hval : c.Valid = false := by
              have := List.find?_some hf
              simpa using this
            simp only [h1, h2, hf, if_neg, if_false]
            constructor
            · rintro ⟨j, hj⟩
              exact Except.noConfusion hj
            · rintro ⟨-, -, hall⟩
              rw [hall c hmem] at hval
              exact Bool.noConfusion hval
        | none =>
            simp only [h1, h2, hf, if_neg, if_false]
            constructor
            · rintro -
              refine ⟨?_, ?_, (find_not_none_iff _ _).mp hf⟩
              · exact fun he => h1 ((string_length_eq_zero _).mpr he)
              · exact fun he => h2 (List.length_eq_zero.mpr he)
            · rintro -
              exact ⟨_, rfl⟩
  · intro cp h
    unfold SelectOperation.MarshalJSON at h
    by_cases h1 : s.Table.length = 0
    · simp [h1] at h
    · by_cases h2 : s.Where.length = 0
      · simp [h1, h2] at h
      · cases hf : s.Where.find? (fun c => !c.Valid) with
        | some c =>
            simp only [h1, h2, hf, if_neg, if_false] at h
            have hval : c.Valid = false := by
              have := List.find?_some hf
              simpa using this
            refine ⟨c, List.mem_of_find?_eq_some hf, hval, ?_⟩
            have := (MarshalErr.invalidCondition.injEq _ _).mp
              ((Except.error.injEq _ _).mp h)
            exact this.symm
        | none => simp [h1, h2, hf] at h
  · unfold UpdateOperation.MarshalJSON
    by_cases h1 : u.Table.length = 0
    · simp [h1, (string_length_eq_zero _).mp h1]
    · by_cases h2 : u.Where.length = 0
      · simp [h1, h2, List.length_eq_zero.mp h2]
      · by_cases h3 : u.Row.length = 0
        · simp [h1, h2, h3, List.length_eq_zero.mp h3]
        · cases hf : u.Where.find? (fun c => !c.Valid) with
          | some c =>
              have hmem := List.mem_of_find?_eq_some hf
              have hval : c.Valid = false := by
                have := List.find?_some hf
                simpa using this
              simp only [h1, h2, h3, hf, if_neg, if_false]
              constructor
              · rintro ⟨j, hj⟩
                exact Except.noConfusion hj
              · rintro ⟨-, -, -, hall⟩
                rw [hall c hmem] at hval
                exact Bool.noConfusion hval
          | none =>
              simp only [h1, h2, h3, hf, if_neg, if_false]
              constructor
              · rintro -
                refine ⟨?_, ?_, ?_, (find_not_none_iff _ _).mp hf⟩
                · exact fun he => h1 ((string_length_eq_zero _).mpr he)
                · exact fun he => h2 (List.length_eq_zero.mpr he)
                · exact fun he => h3 (List.length_eq_zero.mpr he)
              · rintro -
                exact ⟨_, rfl⟩
  · intro cp h
    unfold UpdateOperation.MarshalJSON at h
    by_cases h1 : u.Table.length = 0
    · simp [h1] at h
    · by_cases h2 : u.Where.length = 0
      · simp [h1, h2] at h
      · by_cases h3 : u.Row.length = 0
        · simp [h1, h2, h3] at h
        · cases hf : u.Where.find? (fun c => !c.Valid) with
          | some c =>
              simp only [h1, h2, h3, hf, if_neg, if_false] at h
              have hval : c.Valid = false := by
                have := List.find?_some hf
                simpa using this
              refine ⟨c, List.mem_of_find?_eq_some hf, hval, ?_⟩
              have := (MarshalErr.invalidCondition.injEq _ _).mp
                ((Except.error.injEq _ _).mp h)
              exact this.symm
          | none => simp [h1, h2, h3, hf] at h
  · unfold MutateOperation.MarshalJSON
    by_cases h1 : mu.Table.length = 0
    · simp [h1, (string_length_eq_zero _).mp h1]
    · by_cases h2 : mu.Where.length = 0
      · simp [h1, h2, List.length_eq_zero.mp h2]
      · by_cases h3 : mu.Mutations.length = 0
        · simp [h1, h2, h3, List.length_eq_zero.mp h3]
        · cases hf : mu.Where.find? (fun c => !c.Valid) with
          | some c =>
              have hmem := List.mem_of_find?_eq_some hf
              have hval : c.Valid = false := by
                have := List.find?_some hf
                simpa using this
              simp only [h1, h2, h3, hf, if_neg, if_false]
              constructor
              · rintro ⟨j, hj⟩
                exact Except.noConfusion hj
              · rintro ⟨-, -, -, hall, -⟩
                rw [hall c hmem] at hval
                exact Bool.noConfusion hval
          | none =>
              cases hg : mu.Mutations.find? (fun m => !m.Valid) with
              | some m =>
                  have hmem := List.mem_of_find?_eq_some hg
                  have hval : m.Valid = false := by
                    have := List.find?_some hg
                    simpa using this
                  simp only [h1, h2, h3, hf, hg, if_neg, if_false]
                  constructor
                  · rintro ⟨j, hj⟩
                    exact Except.noConfusion hj
                  · rintro ⟨-, -, -, -, hall⟩
                    rw [hall m hmem] at hval
                    exact Bool.noConfusion hval
              | none =>
                  simp only [h1, h2, h3, hf, hg, if_neg, if_false]
                  constructor
                  · rintro -
                    refine ⟨?_, ?_, ?_, (find_not_none_iff _ _).mp hf,
                      (find_not_none_iff _ _).mp hg⟩
                    · exact fun he => h1 ((string_length_eq_zero _).mpr he)
                    · exact fun he => h2 (List.length_eq_zero.mpr he)
                    · exact fun he => h3 (List.length_eq_zero.mpr he)
                  · rintro -
                    exact ⟨_, rfl⟩
  · intro mp h
    unfold MutateOperation.MarshalJSON at h
    by_cases h1 : mu.Table.length = 0
    · simp [h1] at h
    · by_cases h2 : mu.Where.length = 0
      · simp [h1, h2] at h
      · by_cases h3 : mu.Mutations.length = 0
        · simp [h1, h2, h3] at h
        · cases hf : mu.Where.find? (fun c => !c.Valid) with
          | some c => simp [h1, h2, h3, hf] at h
          | none =>
              cases hg : mu.Mutations.find? (fun m => !m.Valid) with
              | none => simp [h1, h2, h3, hf, hg] at h
              | some m =>
                  simp only [h1, h2, h3, hf, hg, if_neg, if_false] at h
                  have hval : m.Valid = false := by
                    have := List.find?_some hg
                    simpa using this
                  refine ⟨m, List.mem_of_find?_eq_some hg, hval, ?_⟩
                  have := (MarshalErr.invalidMutation.injEq _ _).mp
                    ((Except.error.injEq _ _).mp h)
                  exact this.symm

/-- C6 witness: a valid Mutate encodes; an out-of-set mutator is rejected
with an error naming it; an empty Mutations list is not encodable. -/
theorem c6_operation_validation_witness :
    (∃ j, MutateOperation.MarshalJSON
        ⟨"T", [⟨"c", "==", .str "v"⟩], [⟨"c", "+=", .num 1⟩]⟩ = .ok j)
  ∧ (∃ m ∈ [(⟨"c", "invalid", .num 1⟩ : Mutation)],
        m.Valid = false ∧ ("c", "invalid", Json.num 1) = m.asErrPayload)
  ∧ ¬ (∃ j, MutateOperation.MarshalJSON
        ⟨"T", [⟨"c", "==", .str "v"⟩], []⟩ = .ok j) := by
  refine ⟨?_, ?_, ?_⟩
  · exact (c6_operation_validation ⟨"T", [], []⟩ ⟨"T", [], []⟩
      ⟨"T", [⟨"c", "==", .str "v"⟩], [⟨"c", "+=", .num 1⟩]⟩).2.2.2.2.1.mpr
      ⟨by decide, by simp, by simp, by
        intro c hc
        simp only [List.mem_singleton] at hc
        subst hc
        rfl, by
        intro m hm
        simp only [List.mem_singleton] at hm
        subst hm
        rfl⟩
  · exact (c6_operation_validation ⟨"T", [], []⟩ ⟨"T", [], []⟩
      ⟨"T", [⟨"c", "==", .str "v"⟩], [⟨"c", "invalid", .num 1⟩]⟩).2.2.2.2.2
      ("c", "invalid", .num 1) rfl
  · intro hj
    have := (c6_operation_validation ⟨"T", [], []⟩ ⟨"T", [], []⟩
      ⟨"T", [⟨"c", "==", .str "v"⟩], []⟩).2.2.2.2.1.mp hj
    exact this.2.2.1 rfl

/-- True for the inputs on which a Go object decode does not report a type
error outright: objects (decoded member-wise) and null (a no-op). -/
def Json.isObjOrNull : Json → Bool
  | .obj _ => true
  | .null => true
  | _ => false

/-- C3 counterexample: decoding a malformed ColumnSchema object (its
`mutable` member is a string, and likewise a bare garbage string) returns
a nil error, and the value silently carries the defaulted fields — not the
non-nil decode error the claim requires. -/
theorem c3_columnschema_nil_error_counterexample :
    (ColumnSchema.UnmarshalJSON {} (.obj [("mutable", .str "bad")])).1 = none
  ∧ ((ColumnSchema.UnmarshalJSON {} (.obj [("mutable", .str "bad")])).2).Mutable = true
  ∧ (ColumnSchema.UnmarshalJSON {} (.str "garbage")).1 = none :=
  ⟨rfl, rfl, rfl⟩

/-- C3 amended: shape violations do surface from the column-type
descriptor decoders — a value committed to the JSON-object branch that is
neither an object nor null yields the underlying object decoder's error —
but ColumnSchema.UnmarshalJSON itself discards the underlying error and
returns nil for every input, so a malformed ColumnSchema object decodes
silently into a defaulted/partially-filled value. -/
theorem c3_schema_decode_errors (cs : ColumnSchema) (v : Json)
    (t : AtomicOrJSONColumnType) :
    (ColumnSchema.UnmarshalJSON cs v).1 = none
  ∧ (v.isStr = false → v.isObjOrNull = false →
      (AtomicOrJSONColumnType.UnmarshalJSON t v).1 = some (.typeErr "JSONColumnType")) := by
  refine ⟨rfl, ?_⟩
  intro h1 h2
  match v with
  | .str s => simp [Json.isStr] at h1
  | .obj f => simp [Json.isObjOrNull] at h2
  | .null => simp [Json.isObjOrNull] at h2
  | .bool b => rfl
  | .num n => rfl
  | .arr es => rfl

/-- C3 witness: the amended statement at a numeric column-type input and
any receiver. -/
theorem c3_schema_decode_errors_witness :
    (ColumnSchema.UnmarshalJSON {} (.num 3)).1 = none
  ∧ (AtomicOrJSONColumnType.UnmarshalJSON {} (.num 3)).1
      = some (.typeErr "JSONColumnType") :=
  ⟨(c3_schema_decode_errors {} (.num 3) {}).1,
   (c3_schema_decode_errors {} (.num 3) {}).2 rfl rfl⟩

/-- Every branch of the aliasColumnSchema member loop except the `mutable`
member leaves the Mutable field as it stands (the aborting `type` branch
included). -/
theorem columnSchemaMembers_mutable_preserved (fields : List (String × Json)) :
    ∀ st saved, (∀ kv ∈ fields, kv.1 ≠ "mutable") →
      ((ColumnSchema.decodeMembers st saved fields).2).Mutable = st.Mutable := by
  induction fields with
  | nil =>
      intro st saved h
      rfl
  | cons kv rest ih =>
      intro st saved h
      obtain ⟨k, v⟩ := kv
      have hk : k ≠ "mutable" := h (k, v) (List.mem_cons_self _ _)
      have hrest : ∀ kv ∈ rest, kv.1 ≠ "mutable" :=
        fun x hx => h x (List.mem_cons_of_mem _ hx)
      simp only [ColumnSchema.decodeMembers]
      by_cases hk1 : k = "type"
      · rw [if_pos hk1]
        rcases hu : AtomicOrJSONColumnType.UnmarshalJSON st.Typ v with ⟨eo, t2⟩
        cases eo with
        | some e => rfl
        | none => exact ih _ _ hrest
      · by_cases hk2 : k = "ephemeral"
        · rw [if_neg hk1, if_pos hk2]
          rcases hb : decodeBoolMember st.Ephemeral v with ⟨e, b2⟩
          exact ih _ _ hrest
        · rw [if_neg hk1, if_neg hk2, if_neg hk]
          exact ih _ _ hrest

/-- When the members before a `mutable` member decode without aborting
(in particular every `type` member among them decodes cleanly) and no
later member is again `mutable`, the supplied boolean is what the member
loop leaves in the Mutable field. -/
theorem columnSchemaMembers_mutable_wins (pre : List (String × Json)) :
    ∀ st saved (b : Bool) post,
      (∀ kv ∈ pre, kv.1 = "type" →
          ∀ t2, (AtomicOrJSONColumnType.UnmarshalJSON t2 kv.2).1 = none) →
      (∀ kv ∈ post, kv.1 ≠ "mutable") →
      ((ColumnSchema.decodeMembers st saved
          (pre ++ ("mutable", .bool b) :: post)).2).Mutable = b := by
  induction pre with
  | nil =>
      intro st saved b post hpre hpost
      show (ColumnSchema.decodeMembers st saved
          (("mutable", .bool b) :: post)).2.Mutable = b
      simp only [ColumnSchema.decodeMembers]
      rw [if_neg (by decide : ¬("mutable" : String) = "type"),
        if_neg (by decide : ¬("mutable" : String) = "ephemeral"), if_pos trivial]
      exact columnSchemaMembers_mutable_preserved post _ _ hpost
  | cons kv rest ih =>
      intro st saved b post hpre hpost
      obtain ⟨k, v⟩ := kv
      have hpre2 : ∀ kv ∈ rest, kv.1 = "type" →
          ∀ t2, (AtomicOrJSONColumnType.UnmarshalJSON t2 kv.2).1 = none :=
        fun x hx => hpre x (List.mem_cons_of_mem _ hx)
      show (ColumnSchema.decodeMembers st saved
          ((k, v) :: (rest ++ ("mutable", .bool b) :: post))).2.Mutable = b
      simp only [ColumnSchema.decodeMembers]
      by_cases hk1 : k = "type"
      · rw [if_pos hk1]
        have hnone := hpre (k, v) (List.mem_cons_self _ _) hk1 st.Typ
        rcases hu : AtomicOrJSONColumnType.UnmarshalJSON st.Typ v with ⟨eo, t2⟩
        rw [hu] at hnone
        cases eo with
        | some e => exact absurd hnone (by simp)
        | none => exact ih _ _ _ _ hpre2 hpost
      · by_cases hk2 : k = "ephemeral"
        · rw [if_neg hk1, if_pos hk2]
          rcases hb : decodeBoolMember st.Ephemeral v with ⟨e, b2⟩
          exact ih _ _ _ _ hpre2 hpost
        · by_cases hk3 : k = "mutable"
          · rw [if_neg hk1, if_neg hk2, if_pos hk3]
            rcases hb : decodeBoolMember st.Mutable v with ⟨e, b2⟩
            exact ih _ _ _ _ hpre2 hpost
          · rw [if_neg hk1, if_neg hk2, if_neg hk3]
            exact ih _ _ _ _ hpre2 hpost

/-- C7 counterexample: when an erroring `type` member precedes the
supplied `mutable` member, the member loop aborts before reaching it (the
error-returning custom column-type decoder ends the object decode), so the
supplied false does not win — the decoded Mutable is still true. -/
theorem c7_mutable_supplied_loses_counterexample :
    ((ColumnSchema.UnmarshalJSON {}
        (.obj [("type", .num 5), ("mutable", .bool false)])).2).Mutable = true :=
  rfl

/-- C7 amended: a wire object that omits the `mutable` member decodes with
Mutable true (whatever else it contains, even members whose decode errors
out); when the object supplies a boolean `mutable` member and the
preceding members decode without aborting (the later ones not supplying
`mutable` again), the supplied value wins; and the default is a
wire-decode artifact only — the Go zero value a directly constructed
ColumnSchema starts from has Mutable false. -/
theorem c7_mutable_default :
    (∀ cs fields, (∀ kv ∈ fields, kv.1 ≠ "mutable") →
        ((ColumnSchema.UnmarshalJSON cs (.obj fields)).2).Mutable = true)
  ∧ (∀ cs pre (b : Bool) post,
        (∀ kv ∈ pre, kv.1 = "type" →
            ∀ t2, (AtomicOrJSONColumnType.UnmarshalJSON t2 kv.2).1 = none) →
        (∀ kv ∈ post, kv.1 ≠ "mutable") →
        ((ColumnSchema.UnmarshalJSON cs
            (.obj (pre ++ ("mutable", .bool b) :: post))).2).Mutable = b)
  ∧ (({} : ColumnSchema).Mutable = false) := by
  refine ⟨?_, ?_, rfl⟩
  · intro cs fields h
    exact columnSchemaMembers_mutable_preserved fields _ _ h
  · intro cs pre b post hpre hpost
    exact columnSchemaMembers_mutable_wins pre _ _ _ _ hpre hpost

/-- C7 witness: a schema column object without `mutable` decodes to
Mutable true; the same object with `mutable: false` decodes to false. -/
theorem c7_mutable_default_witness :
    ((ColumnSchema.UnmarshalJSON {} (.obj [("type", .str "integer")])).2).Mutable = true
  ∧ ((ColumnSchema.UnmarshalJSON {}
      (.obj [("type", .str "integer"), ("mutable", .bool false)])).2).Mutable = false := by
  constructor
  · refine c7_mutable_default.1 {} [("type", .str "integer")] ?_
    intro kv h
    simp only [List.mem_singleton] at h
    subst h
    decide
  · refine c7_mutable_default.2.1 {} [("type", .str "integer")] false [] ?_ ?_
    · intro kv h hk t2
      simp only [List.mem_singleton] at h
      subst h
      rfl
    · intro kv h
      exact absurd h (List.not_mem_nil _)

/-- C8: for a well-formed inbound `update` notification (two parameters,
decodable table updates), the handler invoked is exactly the current
NotificationHandler of the Client that the process-wide clientsMap
registers for the receiving connection (first conjunct), a connection with
no registered Client drops the notification invoking no handler and
returning no error (second conjunct), and any delivery that does happen
names the registered owner's handler — never a Client of a different
connection (third conjunct); the registry is universally quantified, so
this holds for every registry state with any number of open clients. -/
theorem c8_update_dispatch (clientsMap : ClientsMap) (conn : Nat) (v uj : Json)
    (tu : TableUpdates) (hdec : decodeTableUpdates uj = some tu) :
    (∀ c, clientsMap conn = some c →
        updateHandler clientsMap conn [v, uj] = .delivered c.handler v tu)
  ∧ (clientsMap conn = none → updateHandler clientsMap conn [v, uj] = .dropped)
  ∧ (∀ h jv t2, updateHandler clientsMap conn [v, uj] = .delivered h jv t2 →
        ∃ c, clientsMap conn = some c ∧ h = c.handler) := by
  have hrun : updateHandler clientsMap conn [v, uj]
      = match clientsMap conn with
        | some ovsClient => .delivered ovsClient.handler v tu
        | none => .dropped := by
    unfold updateHandler
    rw [if_neg (fun h => h rfl)]
    show (match decodeTableUpdates uj with
          | none => Dispatch.errDecode
          | some tableUpdates =>
              match clientsMap conn with
              | some ovsClient => .delivered ovsClient.handler v tableUpdates
              | none => .dropped) = _
    rw [hdec]
  refine ⟨?_, ?_, ?_⟩
  · intro c hc
    rw [hrun, hc]
  · intro hc
    rw [hrun, hc]
  · intro h jv t2 hres
    rw [hrun] at hres
    cases hc : clientsMap conn with
    | none =>
        rw [hc] at hres
        exact Dispatch.noConfusion hres
    | some c =>
        rw [hc] at hres
        refine ⟨c, rfl, ?_⟩
        exact (Dispatch.delivered.injEq _ _ _ _ _ _).mp hres |>.1.symm

/-- C8 witness: with exactly the Client registered by Dial for connection
0 in the registry, an update on connection 0 reaches that Client's
handler, and the same update on the unregistered connection 1 is
dropped. -/
theorem c8_update_dispatch_witness :
    updateHandler (dialRegister (fun _ => none) 0 ⟨7⟩) 0 [.null, .null]
      = .delivered 7 .null []
  ∧ updateHandler (dialRegister (fun _ => none) 0 ⟨7⟩) 1 [.null, .null] = .dropped :=
  ⟨(c8_update_dispatch (dialRegister (fun _ => none) 0 ⟨7⟩) 0 .null .null [] rfl).1
      ⟨7⟩ rfl,
   (c8_update_dispatch (dialRegister (fun _ => none) 0 ⟨7⟩) 1 .null .null [] rfl).2.1
      rfl⟩

end GoOvsdb
